import Mathlib

/-!
Verification of the chunking, index-build and search pipeline of the
`python_be` service (`services/index_service.py`, `services/search_service.py`,
`api/routes.py`).

Python strings are modelled as lists of characters (`PyStr`).  The external
collaborators (pymupdf extraction, the sentence-transformers embedding model,
the chromadb vector store) are modelled as explicit data: extraction results
live inside `PdfFile`, the embedding model is an abstract function plus
success switches in `BuildEnv`, and the chromadb collection is a list of
entries with explicit count / get / delete / add / query operations.
-/

set_option maxHeartbeats 1000000
set_option maxRecDepth 20000

/-- Python strings, modelled as lists of characters. -/
abbrev PyStr := List Char

/-- Python `text.split("\n")`: the pieces between newline characters.
For `n` newlines there are `n + 1` pieces, empty pieces included. -/
def splitNL : PyStr → List PyStr
  | [] => [[]]
  | c :: cs =>
    if c = '\n' then [] :: splitNL cs
    else
      match splitNL cs with
      | [] => [[c]]
      | piece :: rest => (c :: piece) :: rest

/-- The whitespace characters removed by Python `str.strip()` (ASCII part;
non-ASCII Unicode whitespace is not modelled). -/
def pyIsSpace (c : Char) : Bool :=
  c == ' ' || c == '\t' || c == '\n' || c == '\r' || c == '\x0b' || c == '\x0c'

/-- Python `s.strip()`: drop leading and trailing whitespace. -/
def pyStrip (s : PyStr) : PyStr :=
  (s.dropWhile pyIsSpace).rdropWhile pyIsSpace

/-- The paragraph list of `_split_into_chunks` (index_service.py line 30):
`[p.strip() for p in text.split("\n") if p.strip()]`. -/
def paras (text : PyStr) : List PyStr :=
  ((splitNL text).map pyStrip).filter (fun p => !p.isEmpty)

/-- Python `s[-n:]`: the last `n` characters.  Note the Python quirk that
`s[-0:]` is the whole string. -/
def pySliceLast (n : Nat) (s : PyStr) : PyStr :=
  if n = 0 then s else s.drop (s.length - n)

/-- One iteration of the paragraph loop of `_split_into_chunks`
(index_service.py lines 32-38).  State is (chunks so far, accumulator). -/
def chunkStep (maxChars overlap : Nat) (st : List PyStr × PyStr) (p : PyStr) :
    List PyStr × PyStr :=
  if maxChars < st.2.length + p.length + 1 then
    (st.1 ++ [st.2], pySliceLast overlap st.2 ++ '\n' :: p)
  else
    (st.1, if st.2.isEmpty then p else st.2 ++ '\n' :: p)

/-- The paragraph loop of `_split_into_chunks` followed by the final
emission of a non-empty accumulator (index_service.py lines 31-41). -/
def chunksOf (maxChars overlap : Nat) (ps : List PyStr) : List PyStr :=
  let st := ps.foldl (chunkStep maxChars overlap) ([], [])
  if st.2.isEmpty then st.1 else st.1 ++ [st.2]

/-- The function `IndexService._split_into_chunks` (index_service.py lines 28-41). -/
def splitIntoChunks (maxChars overlap : Nat) (text : PyStr) : List PyStr :=
  chunksOf maxChars overlap (paras text)

/-- Python `"\n".join(l)`. -/
def joinNL : List PyStr → PyStr
  | [] => []
  | [p] => p
  | p :: q :: l => p ++ '\n' :: joinNL (q :: l)

/-- Predicate: `q` occurs as a contiguous substring of `c`. -/
def occursIn (q c : PyStr) : Prop := ∃ l r, l ++ q ++ r = c

example : splitIntoChunks 250 50
    (List.replicate 100 'A' ++ '\n' :: List.replicate 100 'B' ++ '\n' :: List.replicate 100 'C')
    = [List.replicate 100 'A' ++ '\n' :: List.replicate 100 'B',
       List.replicate 50 'B' ++ '\n' :: List.replicate 100 'C'] := by decide

example : splitIntoChunks 250 50 (List.replicate 251 'X')
    = [[], '\n' :: List.replicate 251 'X'] := by decide

/-- Configuration constants set in `IndexService.__init__`
(index_service.py lines 11-17). -/
structure IndexConfig where
  document_dir : String
  chroma_dir : String
  collection_name : String
  embedding_model_name : String
  max_chars : Nat
  overlap : Nat
deriving DecidableEq

/-- The constants of `IndexService.__init__`. -/
def defaultConfig : IndexConfig :=
  { document_dir := "./document_source"
    chroma_dir := "./chroma_stm32"
    collection_name := "stm32_manual_embedding"
    embedding_model_name := "sentence-transformers/all-MiniLM-L6-v2"
    max_chars := 1500
    overlap := 200 }

/-- Python `os.path.basename` for slash-separated paths. -/
def pyBasename (path : String) : String :=
  (path.splitOn "/").getLastD ""

/-- A file visible to the build: its path and the outcome of pymupdf
extraction (per-page texts, or the error text of the raised exception).
Extraction is an external capability, so its outcome is data of the
environment. -/
structure PdfFile where
  path : String
  extract : Except String (List PyStr)

/-- A chunk tagged with its 1-based page and source file basename, as
assembled by `_load_and_chunk_pdf` (index_service.py lines 54-62). -/
structure PageChunk where
  page : Nat
  text : PyStr
  source : String
deriving DecidableEq

/-- The function `IndexService._load_and_chunk_pdf` (index_service.py lines 43-64):
per-page chunking with 1-based page numbers, plus the page count. -/
def load_and_chunk_pdf (cfg : IndexConfig) (f : PdfFile) :
    Except String (List PageChunk × Nat) :=
  match f.extract with
  | .error e => .error e
  | .ok pageTexts =>
      .ok (pageTexts.enum.flatMap
             (fun it => (splitIntoChunks cfg.max_chars cfg.overlap it.2).map
               (fun c => ⟨it.1 + 1, c, pyBasename f.path⟩)),
           pageTexts.length)

/-- One element of the `file_stats` list (index_service.py lines 100-104). -/
structure FileStat where
  filename : String
  pages : Nat
  chunks : Nat
deriving DecidableEq

/-- The `file_stats` entry produced for a file whose extraction succeeds
(the `.error` default is never used under that hypothesis). -/
def fileStat (cfg : IndexConfig) (f : PdfFile) : FileStat :=
  match load_and_chunk_pdf cfg f with
  | .ok (cs, pgs) => ⟨pyBasename f.path, pgs, cs.length⟩
  | .error _ => ⟨pyBasename f.path, 0, 0⟩

/-- Metadata stored per chunk (index_service.py lines 108-112). -/
structure ChunkMeta where
  page : Nat
  source : String
  file_path : String
deriving DecidableEq

/-- A float32 embedding vector, modelled as an opaque numeric list (no claim
inspects its values). -/
abbrev Embedding := List Int

/-- Accumulators of the per-file loop of `build_index`
(index_service.py lines 91-96). -/
structure LoopState where
  all_texts : List PyStr
  all_metadatas : List ChunkMeta
  all_ids : List String
  file_stats : List FileStat
  chunk_idx : Nat

def initState : LoopState := ⟨[], [], [], [], 0⟩

/-- The body of `for c in chunks:` (index_service.py lines 106-114): append
text, metadata and the id `"chunk_<idx>"`, then bump the counter. -/
def pushChunk (pdf_path : String) (st : LoopState) (c : PageChunk) : LoopState :=
  { st with
    all_texts := st.all_texts ++ [c.text]
    all_metadatas := st.all_metadatas ++ [⟨c.page, c.source, pdf_path⟩]
    all_ids := st.all_ids ++ ["chunk_" ++ Nat.repr st.chunk_idx]
    chunk_idx := st.chunk_idx + 1 }

/-- The per-file loop of `build_index` (index_service.py lines 97-120):
on a per-file error, stop with the error message and the stats gathered so
far; otherwise record the file's stats and push all its chunks. -/
def buildLoop (cfg : IndexConfig) :
    List PdfFile → LoopState → Except (String × List FileStat) LoopState
  | [], st => .ok st
  | f :: fs, st =>
    match load_and_chunk_pdf cfg f with
    | .error e =>
        .error ("Error processing " ++ pyBasename f.path ++ ": " ++ e, st.file_stats)
    | .ok (chunks, pages) =>
        buildLoop cfg fs
          (chunks.foldl (pushChunk f.path)
            { st with file_stats :=
                st.file_stats ++ [⟨pyBasename f.path, pages, chunks.length⟩] })

/-- An entry of the chromadb collection: id, document text, metadata and
embedding vector. -/
structure Entry where
  id : String
  document : PyStr
  metadata : ChunkMeta
  embedding : Embedding
deriving DecidableEq

/-- The persisted chromadb collection (external capability), modelled as its
list of entries. -/
structure Collection where
  entries : List Entry
deriving DecidableEq

/-- chromadb `collection.count()`. -/
def Collection.count (c : Collection) : Nat := c.entries.length

/-- The `ids` field of chromadb `collection.get()`. -/
def Collection.getIds (c : Collection) : List String := c.entries.map (·.id)

/-- chromadb `collection.delete(ids=...)`: remove the entries whose id is
listed. -/
def Collection.deleteIds (c : Collection) (ids : List String) : Collection :=
  ⟨c.entries.filter (fun e => !decide (e.id ∈ ids))⟩

/-- Zip four parallel lists, truncating at the shortest. -/
def zip4 : List α → List β → List γ → List δ → List (α × β × γ × δ)
  | a :: as, b :: bs, c :: cs, d :: ds => (a, b, c, d) :: zip4 as bs cs ds
  | _, _, _, _ => []

/-- chromadb `collection.add(ids, documents, metadatas, embeddings)`. -/
def Collection.addAll (c : Collection) (ids : List String) (docs : List PyStr)
    (metas : List ChunkMeta) (embs : List Embedding) : Collection :=
  ⟨c.entries ++ (zip4 ids docs metas embs).map
      (fun x => ⟨x.1, x.2.1, x.2.2.1, x.2.2.2⟩)⟩

/-- The dictionary returned by `build_index`; fields absent from a given
return site are `none`. -/
structure BuildReport where
  success : Bool
  error : Option String := none
  message : Option String := none
  total_chunks : Option Nat := none
  previous_chunks : Option Nat := none
  files_processed : Option (List FileStat) := none
  embedding_model : Option String := none
  collection_name : Option String := none
deriving DecidableEq

/-- The external environment of one build: whether the source directory
exists, the directory contents, whether the lazy model load and the batch
encode succeed (with the exception texts), and the deterministic embedding
function (one vector per text, as sentence-transformers `encode` returns). -/
structure BuildEnv where
  dir_exists : Bool
  dir_files : List PdfFile
  model_load_ok : Bool
  model_load_err : String
  encode_ok : Bool
  encode_err : String
  embed : PyStr → Embedding

/-- Lexicographic comparison of Python strings by code point, as used by
`sorted()` on the glob result. -/
def pyStrLe : List Char → List Char → Bool
  | [], _ => true
  | _ :: _, [] => false
  | a :: as, b :: bs =>
    if a < b then true else if b < a then false else pyStrLe as bs

/-- The file list `sorted(glob.glob(os.path.join(document_dir, "*.pdf")))`
(index_service.py line 82): the directory files matching `*.pdf`, sorted
lexicographically by path. -/
def sortedPdfFiles (env : BuildEnv) : List PdfFile :=
  List.insertionSort (fun a b => pyStrLe a.path.data b.path.data = true)
    (env.dir_files.filter (fun f => List.isSuffixOf ".pdf".data f.path.data))

/-- Stages 1-6 of `build_index` (index_service.py lines 74-151): everything
before the store update, as an early-return chain.  Produces the failure
report, or the loop state ready for the store stage. -/
def collect_chunks (cfg : IndexConfig) (env : BuildEnv) :
    Except BuildReport LoopState :=
  if !env.dir_exists then
    .error { success := false
             error := some ("Document directory \x27" ++ cfg.document_dir ++ "\x27 not found.")
             message := some "Please create the directory and add PDF files." }
  else if (sortedPdfFiles env).isEmpty then
    .error { success := false
             error := some ("No PDF files found in \x27" ++ cfg.document_dir ++ "\x27.")
             message := some "Please add PDF files to the document_source directory." }
  else
    match buildLoop cfg (sortedPdfFiles env) initState with
    | .error (e, stats) =>
        .error { success := false, error := some e, files_processed := some stats }
    | .ok st =>
        if st.all_texts.isEmpty then
          .error { success := false
                   error := some "No text chunks collected from PDFs."
                   message := some "PDFs may be empty or unreadable." }
        else if !env.model_load_ok then
          .error { success := false
                   error := some ("Failed to load embedding model: " ++ env.model_load_err) }
        else if !env.encode_ok then
          .error { success := false
                   error := some ("Failed to encode documents: " ++ env.encode_err)
                   files_processed := some st.file_stats }
        else .ok st

/-- Stage 7-8 of `build_index` (index_service.py lines 153-188): clear the
pre-existing entries if any (recording the pre-deletion count), add the new
data, and report success.  The store operations themselves are modelled as
always succeeding. -/
def store_replace (cfg : IndexConfig) (env : BuildEnv) (st : LoopState)
    (coll : Collection) : BuildReport × Collection :=
  let old_count :=
    if 0 < coll.count then (if coll.getIds.isEmpty then 0 else coll.getIds.length) else 0
  let coll1 :=
    if 0 < coll.count then
      (if coll.getIds.isEmpty then coll else coll.deleteIds coll.getIds)
    else coll
  let coll2 := coll1.addAll st.all_ids st.all_texts st.all_metadatas
      (st.all_texts.map env.embed)
  ({ success := true
     message := some "Index built successfully"
     total_chunks := some coll2.count
     previous_chunks := some old_count
     files_processed := some st.file_stats
     embedding_model := some cfg.embedding_model_name
     collection_name := some cfg.collection_name }, coll2)

/-- The method `IndexService.build_index` (index_service.py lines 66-194), returning the
report together with the resulting collection state. -/
def build_index (cfg : IndexConfig) (env : BuildEnv) (coll : Collection) :
    BuildReport × Collection :=
  match collect_chunks cfg env with
  | .error r => (r, coll)
  | .ok st => store_replace cfg env st coll

/-- The id assigned to the chunk with counter value `i`:
`f"chunk_{chunk_idx}"` (index_service.py line 113). -/
def chunkId (i : Nat) : String := "chunk_" ++ Nat.repr i

/-- The numeric value of a decimal digit character. -/
def digitVal (c : Char) : Nat := c.toNat - '0'.toNat

/-- The number denoted by a list of decimal digit characters. -/
def decimalVal (l : List Char) : Nat :=
  l.foldl (fun a c => a * 10 + digitVal c) 0

/-- The raw result of a chromadb `collection.query` call for a single query
embedding (the inner lists of the returned dict). -/
structure QueryResult where
  ids : List String
  documents : List PyStr
  metadatas : List ChunkMeta
  distances : List Int
deriving DecidableEq

/-- Squared L2 distance, chromadb's default metric, over the modelled
vectors. -/
def sqDist (u v : Embedding) : Int :=
  ((u.zip v).map (fun p => (p.1 - p.2) ^ 2)).sum

/-- Ordering of stored entries by distance to a query embedding. -/
def entryLe (qe : Embedding) (a b : Entry) : Prop :=
  sqDist qe a.embedding ≤ sqDist qe b.embedding

instance (qe : Embedding) : DecidableRel (entryLe qe) :=
  fun x y => Int.decLe (sqDist qe x.embedding) (sqDist qe y.embedding)

instance (qe : Embedding) : IsTotal Entry (entryLe qe) :=
  ⟨fun x y => le_total (sqDist qe x.embedding) (sqDist qe y.embedding)⟩

instance (qe : Embedding) : IsTrans Entry (entryLe qe) :=
  ⟨fun _ _ _ h1 h2 => le_trans h1 h2⟩

/-- The stored entries nearest to the query: all entries ordered by
ascending distance, truncated to `n_results`. -/
def queryHits (coll : Collection) (qe : Embedding) (n_results : Int) : List Entry :=
  (List.insertionSort (entryLe qe) coll.entries).take n_results.toNat

/-- Model of chromadb `collection.query(query_embeddings=[q], n_results=k)`
(external capability, spec section 4.3): the nearest entries' parallel
id / document / metadata / distance lists (chromadb requires a positive
`n_results`; the claims only evaluate it there). -/
def Collection.query (coll : Collection) (q : Embedding) (n_results : Int) :
    QueryResult :=
  ⟨(queryHits coll q n_results).map (·.id),
   (queryHits coll q n_results).map (·.document),
   (queryHits coll q n_results).map (·.metadata),
   (queryHits coll q n_results).map (fun e => sqDist q e.embedding)⟩

/-- The method `SearchService.search` (search_service.py lines 19-43): encode the query
with the embedding model, then query the collection with `n_results=k`.
No argument validation happens here. -/
def SearchService.search (embed : String → Embedding) (coll : Collection)
    (query : String) (k : Int) : QueryResult :=
  coll.query (embed query) k

/-- The pydantic validation of `SearchRequest` (routes.py lines 9-22):
`query` has `min_length=1`, `k` has `ge=1` and `le=20`. -/
def SearchRequest.validate (query : String) (k : Int) : Bool :=
  decide (1 ≤ query.length) && decide (1 ≤ k) && decide (k ≤ 20)

/-- The response item model of routes.py lines 39-44. -/
structure SearchResult where
  id : Option String
  text : PyStr
  page : Nat
  source : String
  score : Int
deriving DecidableEq

/-- The response model of routes.py lines 46-49. -/
structure SearchResponse where
  query : String
  results : List SearchResult
  total_results : Nat
deriving DecidableEq

/-- The `search_manual` route handler (routes.py lines 100-140): run the
search, zip the returned parallel lists into `SearchResult`s when the
document list is non-empty, and count them. -/
def search_manual (embed : String → Embedding) (coll : Collection)
    (query : String) (k : Int) : SearchResponse :=
  let r := SearchService.search embed coll query k
  let search_results :=
    if !r.documents.isEmpty then
      (zip4 r.ids r.documents r.metadatas r.distances).map
        (fun x => { id := some x.1, text := x.2.1, page := x.2.2.1.page,
                    source := x.2.2.1.source, score := x.2.2.2 })
    else []
  { query := query, results := search_results,
    total_results := search_results.length }

/-- Paragraph of 100 copies of A (spec concrete scenario). -/
def parA : PyStr := List.replicate 100 'A'

/-- Paragraph of 100 copies of B (spec concrete scenario). -/
def parB : PyStr := List.replicate 100 'B'

/-- Paragraph of 100 copies of C (spec concrete scenario). -/
def parC : PyStr := List.replicate 100 'C'

/-- The 1-page text of the spec concrete scenario: the three paragraphs
newline-joined. -/
def pageABC : PyStr := parA ++ '\n' :: parB ++ '\n' :: parC

/-- Test fixture: a PDF whose single page extracts to the text hi. -/
def fileA : PdfFile := ⟨"./document_source/a.pdf", .ok [['h', 'i']]⟩

/-- Test fixture: a PDF whose extraction raises the exception text boom. -/
def fileB : PdfFile := ⟨"./document_source/b.pdf", .error "boom"⟩

/-- Test fixture: a PDF whose single page extracts to the text yo. -/
def fileC : PdfFile := ⟨"./document_source/c.pdf", .ok [['y', 'o']]⟩

/-- Test fixture: a non-PDF file, invisible to the `*.pdf` glob. -/
def fileTxt : PdfFile := ⟨"./document_source/notes.txt", .ok []⟩

/-- Test fixture: a pre-existing collection with one entry. -/
def collW : Collection := ⟨[⟨"old_0", ['x'], ⟨1, "old.pdf", "./old.pdf"⟩, [7]⟩]⟩

/-- Test fixture: a healthy environment holding one extractable PDF. -/
def envOkW : BuildEnv := ⟨true, [fileA], true, "", true, "", fun _ => [0]⟩

/-- Test fixture: an environment where the second PDF fails to extract. -/
def envFailW : BuildEnv := ⟨true, [fileA, fileB, fileC], true, "", true, "", fun _ => [0]⟩

/-- Test fixture: an environment whose directory holds no PDF file. -/
def envNoPdfW : BuildEnv := ⟨true, [fileTxt], true, "", true, "", fun _ => [0]⟩

/-- Test fixture: a two-entry collection for search claims. -/
def collSearchW : Collection :=
  ⟨[⟨"chunk_0", ['a'], ⟨1, "a.pdf", "./a.pdf"⟩, [3]⟩,
    ⟨"chunk_1", ['b'], ⟨2, "a.pdf", "./a.pdf"⟩, [1]⟩]⟩

/-- Test fixture: a trivial embedding function. -/
def embedW : String → Embedding := fun _ => [0]

/-- Loop invariant of the per-file loop: the ids collected so far are
exactly chunk_0 .. chunk_(chunk_idx - 1) in order, and the text and
metadata lists have one element per id. -/
def idsWF (st : LoopState) : Prop :=
  st.all_ids = (List.range st.chunk_idx).map chunkId
  ∧ st.all_texts.length = st.chunk_idx
  ∧ st.all_metadatas.length = st.chunk_idx

theorem splitNL_ne_nil : ∀ s : PyStr, splitNL s ≠ [] := by
  intro s
  induction s with
  | nil => simp [splitNL]
  | cons c cs ih =>
    by_cases hc : c = '\n'
    · simp [splitNL, hc]
    · simp only [splitNL, if_neg hc]
      cases hq : splitNL cs <;> simp

theorem no_newline_splitNL : ∀ (s p : PyStr), p ∈ splitNL s → '\n' ∉ p := by
  intro s
  induction s with
  | nil =>
    intro p hp
    simp [splitNL] at hp
    subst hp; simp
  | cons c cs ih =>
    intro p hp
    by_cases hc : c = '\n'
    · subst hc
      simp [splitNL] at hp
      rcases hp with h | h
      · subst h; simp
      · exact ih p h
    · simp only [splitNL, if_neg hc] at hp
      cases hq : splitNL cs with
      | nil => exact absurd hq (splitNL_ne_nil cs)
      | cons q qs =>
        rw [hq] at hp
        rcases List.mem_cons.mp hp with h | h
        · subst h
          intro hm
          rcases List.mem_cons.mp hm with e | e
          · exact hc e.symm
          · exact ih q (by rw [hq]; exact List.mem_cons_self _ _) e
        · exact ih p (by rw [hq]; exact List.mem_cons_of_mem _ h)

theorem splitNL_append : ∀ (xs rest hd : PyStr) (tl : List PyStr), '\n' ∉ xs →
    splitNL rest = hd :: tl → splitNL (xs ++ rest) = (xs ++ hd) :: tl := by
  intro xs
  induction xs with
  | nil =>
    intro rest hd tl _ hr
    simpa using hr
  | cons c cs ih =>
    intro rest hd tl hnl hr
    have hc : ¬(c = '\n') := fun e => hnl (by simp [e])
    have h2 := ih rest hd tl (fun m => hnl (List.mem_cons_of_mem _ m)) hr
    simp only [List.cons_append, splitNL, if_neg hc, List.append_eq, h2]

theorem splitNL_joinNL : ∀ l : List PyStr, l ≠ [] → (∀ p ∈ l, '\n' ∉ p) →
    splitNL (joinNL l) = l := by
  intro l
  induction l with
  | nil => intro h; exact absurd rfl h
  | cons p ps ih =>
    intro _ hnl
    cases ps with
    | nil =>
      have h := splitNL_append p [] [] [] (hnl p (by simp)) rfl
      simpa [joinNL] using h
    | cons q qs =>
      have hr : splitNL ('\n' :: joinNL (q :: qs)) = [] :: (q :: qs) := by
        have h := ih (by simp) (fun x hx => hnl x (List.mem_cons_of_mem _ hx))
        simp [splitNL, h]
      have h := splitNL_append p ('\n' :: joinNL (q :: qs)) [] (q :: qs)
        (hnl p (by simp)) hr
      simpa [joinNL] using h

theorem dropWhile_head_false :
    ∀ (p : Char → Bool) (l : PyStr) (a : Char) (w : PyStr),
    List.dropWhile p l = a :: w → p a = false := by
  intro p l
  induction l with
  | nil => intro a w h; simp [List.dropWhile] at h
  | cons c cs ih =>
    intro a w h
    rw [List.dropWhile_cons] at h
    by_cases hc : p c = true
    · rw [if_pos hc] at h; exact ih a w h
    · rw [if_neg hc] at h
      cases h
      simpa using hc

theorem exists_append_rdropWhile (p : Char → Bool) (l : PyStr) :
    ∃ t, List.rdropWhile p l ++ t = l := by
  have h : List.dropWhile p l.reverse <:+ l.reverse := List.dropWhile_suffix p
  obtain ⟨t, ht⟩ := h
  refine ⟨t.reverse, ?_⟩
  have h2 := congrArg List.reverse ht
  simpa [List.rdropWhile] using h2

theorem dropWhile_rdropWhile (p : Char → Bool) (l : PyStr)
    (hl : List.dropWhile p l = l) :
    List.dropWhile p (List.rdropWhile p l) = List.rdropWhile p l := by
  cases hr : List.rdropWhile p l with
  | nil => simp
  | cons a w =>
    obtain ⟨t, ht⟩ := exists_append_rdropWhile p l
    rw [hr] at ht
    cases l with
    | nil => simp [List.rdropWhile] at hr
    | cons c cs =>
      rw [List.cons_append] at ht
      have hac : a = c := (List.cons.injEq _ _ _ _ ▸ ht).1
      have hpc : p c = false := by
        by_contra hpc
        rw [Bool.not_eq_false] at hpc
        rw [List.dropWhile_cons, if_pos hpc] at hl
        have hle := (List.dropWhile_sublist p : List.Sublist (List.dropWhile p cs) cs).length_le
        rw [hl] at hle
        simp at hle
      rw [List.dropWhile_cons, hac, hpc]
      simp

theorem pyStrip_idem (s : PyStr) : pyStrip (pyStrip s) = pyStrip s := by
  unfold pyStrip
  rw [dropWhile_rdropWhile pyIsSpace (s.dropWhile pyIsSpace)
        (List.dropWhile_idempotent pyIsSpace s),
      List.rdropWhile_idempotent]

theorem mem_pyStrip (c : Char) (s : PyStr) (h : c ∈ pyStrip s) : c ∈ s := by
  unfold pyStrip at h
  obtain ⟨t, ht⟩ := exists_append_rdropWhile pyIsSpace (s.dropWhile pyIsSpace)
  have h1 : c ∈ List.dropWhile pyIsSpace s := by
    rw [← ht]
    exact List.mem_append_left _ h
  exact ((List.dropWhile_suffix pyIsSpace).sublist).subset h1

theorem paras_mem (t q : PyStr) (hq : q ∈ paras t) :
    q ≠ [] ∧ pyStrip q = q ∧ '\n' ∉ q := by
  unfold paras at hq
  rw [List.mem_filter] at hq
  obtain ⟨hmem, hne⟩ := hq
  rw [List.mem_map] at hmem
  obtain ⟨piece, hpiece, rfl⟩ := hmem
  refine ⟨by simpa using hne, pyStrip_idem piece, ?_⟩
  intro hc
  exact no_newline_splitNL t piece hpiece (mem_pyStrip _ _ hc)

theorem paras_joinNL (t : PyStr) : paras (joinNL (paras t)) = paras t := by
  cases hp : paras t with
  | nil => rfl
  | cons q qs =>
    have hnl : ∀ p ∈ q :: qs, '\n' ∉ p := fun p hp2 => (paras_mem t p (hp ▸ hp2)).2.2
    unfold paras
    rw [splitNL_joinNL (q :: qs) (by simp) hnl]
    have hmap : List.map pyStrip (q :: qs) = List.map id (q :: qs) :=
      List.map_congr_left (fun a ha => (paras_mem t a (hp ▸ ha)).2.1)
    rw [hmap, List.map_id]
    have hfil : List.filter (fun p => !p.isEmpty) (q :: qs) = q :: qs := by
      rw [List.filter_eq_self]
      intro a ha
      simpa using (paras_mem t a (hp ▸ ha)).1
    rw [hfil]

/-- C8: re-splitting the newline-join of the non-empty trimmed paragraphs of
any page text produces exactly the chunk sequence of the original text. -/
theorem chunkSplitter_rejoin (M O : Nat) (t : PyStr) :
    splitIntoChunks M O (joinNL (paras t)) = splitIntoChunks M O t := by
  unfold splitIntoChunks
  rw [paras_joinNL]

theorem occursIn_extend (q c r : PyStr) (h : occursIn q c) : occursIn q (c ++ r) := by
  obtain ⟨l, rr, hl⟩ := h
  exact ⟨l, rr ++ r, by rw [← hl]; simp⟩

theorem chunksOf_eq (M O : Nat) (ps : List PyStr) :
    chunksOf M O ps =
      if (ps.foldl (chunkStep M O) ([], [])).2.isEmpty then
        (ps.foldl (chunkStep M O) ([], [])).1
      else (ps.foldl (chunkStep M O) ([], [])).1 ++
        [(ps.foldl (chunkStep M O) ([], [])).2] := rfl

theorem chunkStep_keeps (M O : Nat) (st : List PyStr × PyStr) (p q : PyStr)
    (h : (∃ c ∈ st.1, occursIn q c) ∨ occursIn q st.2) :
    (∃ c ∈ (chunkStep M O st p).1, occursIn q c) ∨
      occursIn q (chunkStep M O st p).2 := by
  by_cases hc : M < st.2.length + p.length + 1
  · have h1 : (chunkStep M O st p).1 = st.1 ++ [st.2] := by
      unfold chunkStep; rw [if_pos hc]
    rcases h with ⟨c, hcm, hq⟩ | hq
    · exact Or.inl ⟨c, by rw [h1]; exact List.mem_append_left _ hcm, hq⟩
    · exact Or.inl ⟨st.2, by rw [h1]; exact List.mem_append_right _ (by simp), hq⟩
  · have h1 : (chunkStep M O st p).1 = st.1 := by
      unfold chunkStep; rw [if_neg hc]
    have h2 : (chunkStep M O st p).2
        = if st.2.isEmpty then p else st.2 ++ '\n' :: p := by
      unfold chunkStep; rw [if_neg hc]
    rcases h with ⟨c, hcm, hq⟩ | hq
    · exact Or.inl ⟨c, by rw [h1]; exact hcm, hq⟩
    · right
      rw [h2]
      by_cases he : st.2.isEmpty
      · rw [if_pos he]
        obtain ⟨l, r, hl⟩ := hq
        rw [List.isEmpty_iff.mp he] at hl
        rcases List.append_eq_nil.mp hl with ⟨h3, _⟩
        rw [(List.append_eq_nil.mp h3).2]
        exact ⟨[], p, by simp⟩
      · rw [if_neg he]
        exact occursIn_extend q st.2 ('\n' :: p) hq

theorem chunkStep_new (M O : Nat) (st : List PyStr × PyStr) (p : PyStr) :
    occursIn p (chunkStep M O st p).2 := by
  by_cases hc : M < st.2.length + p.length + 1
  · have h2 : (chunkStep M O st p).2 = pySliceLast O st.2 ++ '\n' :: p := by
      unfold chunkStep; rw [if_pos hc]
    rw [h2]
    exact ⟨pySliceLast O st.2 ++ ['\n'], [], by simp⟩
  · have h2 : (chunkStep M O st p).2
        = if st.2.isEmpty then p else st.2 ++ '\n' :: p := by
      unfold chunkStep; rw [if_neg hc]
    rw [h2]
    by_cases he : st.2.isEmpty
    · rw [if_pos he]; exact ⟨[], [], by simp⟩
    · rw [if_neg he]; exact ⟨st.2 ++ ['\n'], [], by simp⟩

theorem chunkFold_keeps (M O : Nat) :
    ∀ (ps : List PyStr) (st : List PyStr × PyStr) (q : PyStr),
    ((∃ c ∈ st.1, occursIn q c) ∨ occursIn q st.2) →
    ((∃ c ∈ (ps.foldl (chunkStep M O) st).1, occursIn q c) ∨
      occursIn q (ps.foldl (chunkStep M O) st).2) := by
  intro ps
  induction ps with
  | nil => intro st q h; simpa using h
  | cons p ps ih =>
    intro st q h
    simp only [List.foldl_cons]
    exact ih (chunkStep M O st p) q (chunkStep_keeps M O st p q h)

theorem chunkFold_mem (M O : Nat) :
    ∀ (ps : List PyStr) (st : List PyStr × PyStr) (q : PyStr), q ∈ ps →
    ((∃ c ∈ (ps.foldl (chunkStep M O) st).1, occursIn q c) ∨
      occursIn q (ps.foldl (chunkStep M O) st).2) := by
  intro ps
  induction ps with
  | nil => intro st q h; simp at h
  | cons p ps ih =>
    intro st q h
    simp only [List.foldl_cons]
    rcases List.mem_cons.mp h with rfl | h2
    · exact chunkFold_keeps M O ps (chunkStep M O st q) q
        (Or.inr (chunkStep_new M O st q))
    · exact ih (chunkStep M O st p) q h2

/-- C9: every non-empty trimmed paragraph of the input occurs as a contiguous
substring of at least one emitted chunk. -/
theorem chunkSplitter_no_paragraph_dropped (M O : Nat) (t q : PyStr)
    (hq : q ∈ paras t) :
    ∃ c ∈ splitIntoChunks M O t, occursIn q c := by
  have hqne : q ≠ [] := (paras_mem t q hq).1
  have h := chunkFold_mem M O (paras t) ([], []) q hq
  unfold splitIntoChunks
  rw [chunksOf_eq]
  rcases h with ⟨c, hcm, hocc⟩ | hocc
  · refine ⟨c, ?_, hocc⟩
    by_cases he : ((paras t).foldl (chunkStep M O) ([], [])).2.isEmpty
    · rw [if_pos he]; exact hcm
    · rw [if_neg he]; exact List.mem_append_left _ hcm
  · have hne : ¬((paras t).foldl (chunkStep M O) ([], [])).2.isEmpty = true := by
      intro he
      obtain ⟨l, r, hl⟩ := hocc
      rw [List.isEmpty_iff.mp he] at hl
      rcases List.append_eq_nil.mp hl with ⟨h3, _⟩
      exact hqne (List.append_eq_nil.mp h3).2
    refine ⟨((paras t).foldl (chunkStep M O) ([], [])).2, ?_, hocc⟩
    rw [if_neg hne]
    exact List.mem_append_right _ (by simp)

/-- C1 counterexample: a single paragraph of 251 X characters with
maxChars 250 is split into TWO chunks, the first being the EMPTY string:
the code appends the accumulator on the size trigger without the
non-emptiness guard the claim asserts, so the oversized paragraph also
comes out newline-prefixed rather than as one chunk equal to itself. -/
theorem chunkSplitter_empty_chunk_cex :
    splitIntoChunks 250 50 (List.replicate 251 'X')
      = [[], '\n' :: List.replicate 251 'X']
    ∧ [] ∈ splitIntoChunks 250 50 (List.replicate 251 'X')
    ∧ splitIntoChunks 250 50 (List.replicate 251 'X')
        ≠ [List.replicate 251 'X'] := by decide

theorem pySliceLast_nil (n : Nat) : pySliceLast n [] = [] := by
  unfold pySliceLast
  split <;> simp

/-- C1 amended: the splitter emits the accumulator whenever the size trigger
holds, with no non-emptiness guard; an input whose paragraph list is a
single paragraph p with len(p) + 1 > maxChars therefore yields exactly two
chunks: the empty string, then the paragraph prefixed with a newline. -/
theorem chunkSplitter_single_oversized (M O : Nat) (text p : PyStr)
    (hp : paras text = [p]) (hlen : M < p.length + 1) :
    splitIntoChunks M O text = [[], '\n' :: p] := by
  unfold splitIntoChunks
  rw [hp, chunksOf_eq]
  simp only [List.foldl_cons, List.foldl_nil]
  have hstep : chunkStep M O ([], []) p = ([[]], '\n' :: p) := by
    unfold chunkStep
    have hc : M < (([] : PyStr)).length + p.length + 1 := by simpa using hlen
    rw [if_pos hc, pySliceLast_nil]
    simp
  rw [hstep]
  simp

/-- Witness for the amended C1 at the concrete oversized paragraph. -/
theorem chunkSplitter_single_oversized_witness :
    splitIntoChunks 250 50 (List.replicate 251 'X')
      = [[], '\n' :: List.replicate 251 'X'] :=
  chunkSplitter_single_oversized 250 50 (List.replicate 251 'X')
    (List.replicate 251 'X') (by decide) (by decide)

/-- C2: the spec concrete scenario: three 100-character paragraphs with
maxChars 250 and overlap 50 give exactly two chunks, the first joining
paragraphs A and B with a newline, the second being the last 50 characters
of chunk 1 (50 copies of B) followed by a newline and paragraph C. -/
theorem chunkSplitter_concrete_scenario :
    (splitIntoChunks 250 50 pageABC).length = 2
    ∧ splitIntoChunks 250 50 pageABC
        = [parA ++ '\n' :: parB,
           pySliceLast 50 (parA ++ '\n' :: parB) ++ '\n' :: parC]
    ∧ pySliceLast 50 (parA ++ '\n' :: parB) = List.replicate 50 'B' := by
  decide

/-- Witness for C9 at a concrete two-paragraph text. -/
theorem chunkSplitter_no_paragraph_dropped_witness :
    ∃ c ∈ splitIntoChunks 1500 200 ['a', 'b', '\n', 'c'], occursIn ['a', 'b'] c :=
  chunkSplitter_no_paragraph_dropped 1500 200 ['a', 'b', '\n', 'c'] ['a', 'b']
    (by decide)

theorem deleteIds_all (coll : Collection) :
    coll.deleteIds coll.getIds = ⟨[]⟩ := by
  unfold Collection.deleteIds Collection.getIds
  congr 1
  rw [List.filter_eq_nil_iff]
  intro e he
  simp
  exact ⟨e, he, rfl⟩

theorem store_replace_eq (cfg : IndexConfig) (env : BuildEnv) (st : LoopState)
    (coll : Collection) :
    store_replace cfg env st coll =
      ({ success := true
         message := some "Index built successfully"
         total_chunks := some (Collection.addAll ⟨[]⟩ st.all_ids st.all_texts
           st.all_metadatas (st.all_texts.map env.embed)).count
         previous_chunks := some coll.count
         files_processed := some st.file_stats
         embedding_model := some cfg.embedding_model_name
         collection_name := some cfg.collection_name },
       Collection.addAll ⟨[]⟩ st.all_ids st.all_texts st.all_metadatas
         (st.all_texts.map env.embed)) := by
  unfold store_replace
  by_cases h0 : 0 < coll.count
  · have hne : coll.entries ≠ [] := by
      intro h
      unfold Collection.count at h0
      rw [h] at h0
      simp at h0
    have hids : ¬coll.getIds.isEmpty = true := by
      intro h
      unfold Collection.getIds at h
      rw [List.isEmpty_iff, List.map_eq_nil_iff] at h
      exact hne h
    rw [if_pos h0, if_pos h0, if_neg hids, if_neg hids, deleteIds_all]
    have hlen : coll.getIds.length = coll.count := by
      unfold Collection.getIds Collection.count
      exact List.length_map _ _
    rw [hlen]
  · have hz : coll.count = 0 := by omega
    have hent : coll.entries = [] := by
      unfold Collection.count at hz
      exact List.length_eq_zero.mp hz
    have hcoll : coll = ⟨[]⟩ := by
      cases coll
      simp at hent
      rw [hent]
    rw [if_neg h0, if_neg h0, hz, hcoll]

theorem collect_chunks_error (cfg : IndexConfig) (env : BuildEnv) (r : BuildReport)
    (h : collect_chunks cfg env = .error r) : r.success = false := by
  unfold collect_chunks at h
  repeat' split at h
  all_goals first
    | (injection h with h2; exact h2 ▸ rfl)
    | simp at h

theorem build_index_success_collect (cfg : IndexConfig) (env : BuildEnv)
    (coll : Collection) (h : (build_index cfg env coll).1.success = true) :
    ∃ st, collect_chunks cfg env = .ok st
      ∧ build_index cfg env coll = store_replace cfg env st coll := by
  unfold build_index at h ⊢
  cases hc : collect_chunks cfg env with
  | error r =>
      rw [hc] at h
      have h2 : r.success = true := h
      rw [collect_chunks_error cfg env r hc] at h2
      simp at h2
  | ok st =>
      exact ⟨st, rfl, rfl⟩

/-- C3: a second build over an unchanged environment reports the same
total_chunks as the first, and its previous_chunks (the entry count before
the deletion step) equals the first build's total_chunks. -/
theorem build_index_twice (cfg : IndexConfig) (env : BuildEnv) (coll : Collection)
    (h : (build_index cfg env coll).1.success = true) :
    (build_index cfg env (build_index cfg env coll).2).1.total_chunks
        = (build_index cfg env coll).1.total_chunks
    ∧ (build_index cfg env (build_index cfg env coll).2).1.previous_chunks
        = (build_index cfg env coll).1.total_chunks
    ∧ (build_index cfg env (build_index cfg env coll).2).1.success = true := by
  obtain ⟨st, hc, hb⟩ := build_index_success_collect cfg env coll h
  have hb2 : ∀ c2, build_index cfg env c2 = store_replace cfg env st c2 := by
    intro c2
    unfold build_index
    rw [hc]
  rw [hb, hb2, store_replace_eq, store_replace_eq]
  exact ⟨rfl, rfl, rfl⟩

/-- Witness for C3 on the one-file fixture environment. -/
theorem build_index_twice_witness :
    (build_index defaultConfig envOkW (build_index defaultConfig envOkW collW).2).1.total_chunks
        = (build_index defaultConfig envOkW collW).1.total_chunks
    ∧ (build_index defaultConfig envOkW (build_index defaultConfig envOkW collW).2).1.previous_chunks
        = (build_index defaultConfig envOkW collW).1.total_chunks
    ∧ (build_index defaultConfig envOkW (build_index defaultConfig envOkW collW).2).1.success = true :=
  build_index_twice defaultConfig envOkW collW (by decide)

/-- C4: with an existing source directory containing no PDF file,
build_index reports failure with exactly the No-PDF-files error text and
returns the collection unchanged, with no delete or insert performed. -/
theorem build_index_no_pdfs (cfg : IndexConfig) (env : BuildEnv) (coll : Collection)
    (h1 : env.dir_exists = true)
    (h2 : List.filter (fun f => List.isSuffixOf ".pdf".data f.path.data)
        env.dir_files = []) :
    build_index cfg env coll =
      ({ success := false
         error := some ("No PDF files found in \x27" ++ cfg.document_dir ++ "\x27.")
         message := some "Please add PDF files to the document_source directory." },
       coll) := by
  have hs : sortedPdfFiles env = [] := by
    unfold sortedPdfFiles
    rw [h2]
    rfl
  unfold build_index collect_chunks
  rw [h1, hs]
  simp

/-- Witness for C4: a directory containing only a non-PDF file. -/
theorem build_index_no_pdfs_witness :
    build_index defaultConfig envNoPdfW collW =
      ({ success := false
         error := some ("No PDF files found in \x27" ++ defaultConfig.document_dir ++ "\x27.")
         message := some "Please add PDF files to the document_source directory." },
       collW) :=
  build_index_no_pdfs defaultConfig envNoPdfW collW rfl rfl

theorem pushChunk_file_stats (p : String) :
    ∀ (cs : List PageChunk) (st : LoopState),
    (cs.foldl (pushChunk p) st).file_stats = st.file_stats := by
  intro cs
  induction cs with
  | nil => intro st; rfl
  | cons c cs ih =>
      intro st
      rw [List.foldl_cons, ih]
      rfl

theorem buildLoop_fail (cfg : IndexConfig) (bad : PdfFile) (post : List PdfFile)
    (e : String) (hbad : bad.extract = .error e) :
    ∀ (pre : List PdfFile) (st : LoopState),
    (∀ f ∈ pre, ∃ pgs, f.extract = .ok pgs) →
    buildLoop cfg (pre ++ bad :: post) st =
      .error ("Error processing " ++ pyBasename bad.path ++ ": " ++ e,
        st.file_stats ++ pre.map (fileStat cfg)) := by
  intro pre
  induction pre with
  | nil =>
      intro st _
      have hload : load_and_chunk_pdf cfg bad = .error e := by
        unfold load_and_chunk_pdf
        rw [hbad]
      simp only [List.nil_append, buildLoop, hload, List.map_nil, List.append_nil]
  | cons f fs ih =>
      intro st hok
      obtain ⟨pgs, hf⟩ := hok f (by simp)
      have hload : ∃ cs1 n1, load_and_chunk_pdf cfg f = .ok (cs1, n1) := by
        unfold load_and_chunk_pdf
        rw [hf]
        exact ⟨_, _, rfl⟩
      obtain ⟨cs1, n1, hl⟩ := hload
      have hfs : fileStat cfg f = ⟨pyBasename f.path, n1, cs1.length⟩ := by
        unfold fileStat
        rw [hl]
      simp only [List.cons_append, buildLoop, hl, List.append_eq]
      rw [ih _ (fun g hg => hok g (List.mem_cons_of_mem _ hg)), pushChunk_file_stats]
      simp [hfs]

/-- C5: if extraction of one file fails, the whole build aborts with a
failure report whose files_processed list is exactly the stats of the files
before the failing one in sorted order (the failing file and its successors
are absent), and the collection is untouched.  The model is a total
function, mirroring the catch-all that lets no exception escape the call. -/
theorem build_index_extraction_failure (cfg : IndexConfig) (env : BuildEnv)
    (coll : Collection) (pre : List PdfFile) (bad : PdfFile)
    (post : List PdfFile) (e : String)
    (h1 : env.dir_exists = true)
    (h2 : sortedPdfFiles env = pre ++ bad :: post)
    (h3 : ∀ f ∈ pre, ∃ pgs, f.extract = .ok pgs)
    (h4 : bad.extract = .error e) :
    build_index cfg env coll =
      ({ success := false
         error := some ("Error processing " ++ pyBasename bad.path ++ ": " ++ e)
         files_processed := some (pre.map (fileStat cfg)) }, coll) := by
  have hloop := buildLoop_fail cfg bad post e h4 pre initState h3
  unfold build_index collect_chunks
  rw [h1, h2, hloop]
  simp [initState]

/-- Witness for C5: the second of three PDFs fails to extract; only the
first appears in files_processed. -/
theorem build_index_extraction_failure_witness :
    build_index defaultConfig envFailW collW =
      ({ success := false
         error := some ("Error processing " ++ pyBasename fileB.path ++ ": " ++ "boom")
         files_processed := some ([fileA].map (fileStat defaultConfig)) }, collW) :=
  build_index_extraction_failure defaultConfig envFailW collW [fileA] fileB
    [fileC] "boom" rfl rfl
    (by
      intro f hf
      rw [List.mem_singleton] at hf
      subst hf
      exact ⟨_, rfl⟩)
    rfl

theorem toDigitsCore_append10 : ∀ (fuel n : Nat) (ds : List Char),
    Nat.toDigitsCore 10 fuel n ds = Nat.toDigitsCore 10 fuel n [] ++ ds := by
  intro fuel
  induction fuel with
  | zero => intro n ds; rfl
  | succ f ih =>
      intro n ds
      simp only [Nat.toDigitsCore]
      by_cases h : n / 10 = 0
      · simp [h]
      · simp only [if_neg h]
        rw [ih (n / 10) (Nat.digitChar (n % 10) :: ds),
            ih (n / 10) [Nat.digitChar (n % 10)]]
        simp

theorem digitVal_digitChar : ∀ n : Nat, n < 10 → digitVal (Nat.digitChar n) = n := by
  decide

theorem decimalVal_append_one (xs : List Char) (c : Char) :
    decimalVal (xs ++ [c]) = decimalVal xs * 10 + digitVal c := by
  unfold decimalVal
  rw [List.foldl_append]
  rfl

theorem decimalVal_toDigitsCore : ∀ (fuel n : Nat), n < fuel →
    decimalVal (Nat.toDigitsCore 10 fuel n []) = n := by
  intro fuel
  induction fuel with
  | zero => intro n h; omega
  | succ f ih =>
      intro n h
      simp only [Nat.toDigitsCore]
      by_cases h0 : n / 10 = 0
      · simp only [if_pos h0]
        have hn : n < 10 := by
          by_contra hge
          push_neg at hge
          have := Nat.div_pos hge (by norm_num)
          omega
        have hmod : n % 10 = n := Nat.mod_eq_of_lt hn
        unfold decimalVal
        simp [hmod, digitVal_digitChar n hn]
      · simp only [if_neg h0]
        rw [toDigitsCore_append10]
        have h1 : 0 < n := by
          rcases Nat.eq_zero_or_pos n with rfl | h1
          · simp at h0
          · exact h1
        have hlt : n / 10 < f := by
          have h2 : n / 10 < n := Nat.div_lt_self h1 (by norm_num)
          omega
        rw [decimalVal_append_one, ih (n / 10) hlt,
            digitVal_digitChar (n % 10) (Nat.mod_lt n (by norm_num))]
        omega

theorem nat_repr_injective : Function.Injective Nat.repr := by
  intro a b h
  have h2 : Nat.toDigits 10 a = Nat.toDigits 10 b := congrArg String.data h
  have ha := decimalVal_toDigitsCore (a + 1) a (Nat.lt_succ_self a)
  have hb := decimalVal_toDigitsCore (b + 1) b (Nat.lt_succ_self b)
  unfold Nat.toDigits at h2
  rw [← ha, ← hb, h2]

theorem chunkId_injective : Function.Injective chunkId := by
  intro a b h
  apply nat_repr_injective
  have h2 : ("chunk_" ++ Nat.repr a).data = ("chunk_" ++ Nat.repr b).data :=
    congrArg String.data h
  rw [String.data_append, String.data_append] at h2
  have h3 := List.append_cancel_left h2
  exact String.ext h3

theorem pushChunk_wf (p : String) (st : LoopState) (c : PageChunk)
    (h : idsWF st) : idsWF (pushChunk p st c) := by
  obtain ⟨h1, h2, h3⟩ := h
  refine ⟨?_, ?_, ?_⟩
  · show st.all_ids ++ ["chunk_" ++ Nat.repr st.chunk_idx]
        = (List.range (st.chunk_idx + 1)).map chunkId
    rw [h1, List.range_succ, List.map_append]
    rfl
  · show (st.all_texts ++ [c.text]).length = st.chunk_idx + 1
    rw [List.length_append, h2]
    rfl
  · show (st.all_metadatas ++ [(⟨c.page, c.source, p⟩ : ChunkMeta)]).length
        = st.chunk_idx + 1
    rw [List.length_append, h3]
    rfl

theorem foldl_pushChunk_wf (p : String) :
    ∀ (cs : List PageChunk) (st : LoopState), idsWF st →
    idsWF (cs.foldl (pushChunk p) st) := by
  intro cs
  induction cs with
  | nil => intro st h; exact h
  | cons c cs ih =>
      intro st h
      rw [List.foldl_cons]
      exact ih _ (pushChunk_wf p st c h)

theorem buildLoop_wf (cfg : IndexConfig) :
    ∀ (fs : List PdfFile) (st st2 : LoopState), idsWF st →
    buildLoop cfg fs st = .ok st2 → idsWF st2 := by
  intro fs
  induction fs with
  | nil =>
      intro st st2 hwf h
      injection h with h2
      exact h2 ▸ hwf
  | cons f fs ih =>
      intro st st2 hwf h
      unfold buildLoop at h
      cases hl : load_and_chunk_pdf cfg f with
      | error e => rw [hl] at h; simp at h
      | ok pr =>
          rw [hl] at h
          obtain ⟨cs1, n1⟩ := pr
          refine ih _ st2 ?_ h
          exact foldl_pushChunk_wf f.path cs1 _ hwf

theorem collect_chunks_ok (cfg : IndexConfig) (env : BuildEnv) (st : LoopState)
    (h : collect_chunks cfg env = .ok st) :
    buildLoop cfg (sortedPdfFiles env) initState = .ok st := by
  unfold collect_chunks at h
  repeat' split at h
  all_goals simp_all

theorem zip4_map_fst : ∀ (as : List α) (bs : List β) (cs : List γ) (ds : List δ),
    as.length = bs.length → bs.length = cs.length → cs.length = ds.length →
    (zip4 as bs cs ds).map (fun x => x.1) = as
    ∧ (zip4 as bs cs ds).length = as.length := by
  intro as
  induction as with
  | nil =>
      intro bs cs ds h1 h2 h3
      have hbs : bs = [] := List.length_eq_zero.mp h1.symm
      subst hbs
      have hcs : cs = [] := List.length_eq_zero.mp h2.symm
      subst hcs
      have hds : ds = [] := List.length_eq_zero.mp h3.symm
      subst hds
      exact ⟨rfl, rfl⟩
  | cons a as ih =>
      intro bs cs ds h1 h2 h3
      cases bs with
      | nil => simp at h1
      | cons b bs =>
        cases cs with
        | nil => simp at h2
        | cons c cs =>
          cases ds with
          | nil => simp at h3
          | cons d ds =>
            simp only [zip4, List.map_cons, List.length_cons]
            have hr := ih bs cs ds (by simpa using h1) (by simpa using h2)
              (by simpa using h3)
            exact ⟨by rw [hr.1], by rw [hr.2]⟩

/-- C7: after a successful build the collection's identifiers are exactly
chunk_0 .. chunk_(n-1) in storage order (n the entry count), assigned by the
single counter walked in file-then-page-then-chunk order, and they are
pairwise distinct. -/
theorem build_index_ids (cfg : IndexConfig) (env : BuildEnv) (coll : Collection)
    (h : (build_index cfg env coll).1.success = true) :
    (build_index cfg env coll).2.getIds
        = (List.range (build_index cfg env coll).2.count).map chunkId
    ∧ (build_index cfg env coll).2.getIds.Nodup := by
  obtain ⟨st, hc, hb⟩ := build_index_success_collect cfg env coll h
  obtain ⟨hids, htx, hmt⟩ :=
    buildLoop_wf cfg (sortedPdfFiles env) initState st ⟨rfl, rfl, rfl⟩
      (collect_chunks_ok cfg env st hc)
  have hlen1 : st.all_ids.length = st.all_texts.length := by
    rw [hids, htx]
    simp
  have hlen2 : st.all_texts.length = st.all_metadatas.length := by rw [htx, hmt]
  have hlen3 : st.all_metadatas.length = (st.all_texts.map env.embed).length := by
    rw [hmt, List.length_map, htx]
  obtain ⟨hmapfst, hlen⟩ := zip4_map_fst st.all_ids st.all_texts st.all_metadatas
    (st.all_texts.map env.embed) hlen1 hlen2 hlen3
  have hcoll2 : (build_index cfg env coll).2
      = Collection.addAll ⟨[]⟩ st.all_ids st.all_texts st.all_metadatas
          (st.all_texts.map env.embed) := by
    rw [hb, store_replace_eq]
  have hgid : (Collection.addAll ⟨[]⟩ st.all_ids st.all_texts st.all_metadatas
      (st.all_texts.map env.embed)).getIds = st.all_ids := by
    unfold Collection.addAll Collection.getIds
    simp only [List.nil_append, List.map_map]
    exact hmapfst
  have hcount : (Collection.addAll ⟨[]⟩ st.all_ids st.all_texts st.all_metadatas
      (st.all_texts.map env.embed)).count = st.all_ids.length := by
    unfold Collection.addAll Collection.count
    simp only [List.nil_append, List.length_map]
    exact hlen
  have hlen0 : st.all_ids.length = st.chunk_idx := by
    rw [hids]
    simp
  rw [hcoll2, hgid, hcount, hlen0, hids]
  exact ⟨rfl, (List.nodup_range _).map chunkId_injective⟩

/-- Witness for C7 on the one-file fixture environment with a pre-existing
collection entry. -/
theorem build_index_ids_witness :
    (build_index defaultConfig envOkW collW).2.getIds
        = (List.range (build_index defaultConfig envOkW collW).2.count).map chunkId
    ∧ (build_index defaultConfig envOkW collW).2.getIds.Nodup :=
  build_index_ids defaultConfig envOkW collW (by decide)

theorem zip4_map (l : List α) (f1 : α → β) (f2 : α → γ) (f3 : α → δ)
    (f4 : α → ε) :
    zip4 (l.map f1) (l.map f2) (l.map f3) (l.map f4)
      = l.map (fun a => (f1 a, f2 a, f3 a, f4 a)) := by
  induction l with
  | nil => rfl
  | cons a l ih => simp only [List.map_cons, zip4, ih]

theorem search_manual_results (embed : String → Embedding) (coll : Collection)
    (q : String) (k : Int) :
    (search_manual embed coll q k).results
      = (queryHits coll (embed q) k).map
          (fun e => (⟨some e.id, e.document, e.metadata.page, e.metadata.source,
            sqDist (embed q) e.embedding⟩ : SearchResult))
    ∧ (search_manual embed coll q k).total_results
      = (queryHits coll (embed q) k).length := by
  simp only [search_manual, SearchService.search, Collection.query]
  by_cases hhits : queryHits coll (embed q) k = []
  · rw [hhits]
    simp
  · have hcond : ¬((queryHits coll (embed q) k).map
        (fun e => e.document)).isEmpty = true := by
      simp only [List.isEmpty_iff, List.map_eq_nil_iff]
      exact hhits
    simp only [hcond, Bool.not_false, if_pos, zip4_map, List.map_map,
      Bool.not_eq_true]
    constructor
    · rfl
    · rw [List.length_map]

/-- C6: for 1 ≤ k ≤ 20, the search route returns at most k results, the
results come back in non-decreasing score order, total_results counts them,
an empty collection yields an empty result list with total_results 0 (a
success response, since the model is total), and when k is at least the
collection size every stored entry is returned. -/
theorem search_bounded_sorted (embed : String → Embedding) (coll : Collection)
    (q : String) (k : Int) (hk1 : 1 ≤ k) (hk2 : k ≤ 20) :
    ((search_manual embed coll q k).results.length : Int) ≤ k
    ∧ List.Pairwise (fun a b => a.score ≤ b.score)
        (search_manual embed coll q k).results
    ∧ (search_manual embed coll q k).total_results
        = (search_manual embed coll q k).results.length
    ∧ (coll.entries = [] → (search_manual embed coll q k).results = []
        ∧ (search_manual embed coll q k).total_results = 0)
    ∧ ((coll.count : Int) ≤ k →
        (search_manual embed coll q k).results.length = coll.count) := by
  obtain ⟨hres, htot⟩ := search_manual_results embed coll q k
  have hlen : (search_manual embed coll q k).results.length
      = (queryHits coll (embed q) k).length := by
    rw [hres, List.length_map]
  have hhk : (queryHits coll (embed q) k).length ≤ k.toNat := by
    unfold queryHits
    rw [List.length_take]
    exact Nat.min_le_left _ _
  refine ⟨?_, ?_, ?_, ?_, ?_⟩
  · rw [hlen]
    omega
  · rw [hres, List.pairwise_map]
    unfold queryHits
    apply List.Pairwise.sublist (List.take_sublist _ _)
    exact List.sorted_insertionSort (entryLe (embed q)) coll.entries
  · rw [htot, hres, List.length_map]
  · intro hcoll
    have hq : queryHits coll (embed q) k = [] := by
      unfold queryHits
      rw [hcoll]
      simp
    rw [hres, htot, hq]
    exact ⟨rfl, rfl⟩
  · intro hck
    rw [hlen]
    unfold queryHits
    rw [List.length_take]
    have hsl : (List.insertionSort (entryLe (embed q)) coll.entries).length
        = coll.count := (List.perm_insertionSort _ _).length_eq
    rw [hsl]
    have h1 : coll.count ≤ k.toNat := by omega
    exact Nat.min_eq_right h1

/-- Witness for C6 on a concrete two-entry collection with k = 5. -/
theorem search_bounded_sorted_witness :
    ((search_manual embedW collSearchW "x" 5).results.length : Int) ≤ 5
    ∧ List.Pairwise (fun a b => a.score ≤ b.score)
        (search_manual embedW collSearchW "x" 5).results
    ∧ (search_manual embedW collSearchW "x" 5).total_results
        = (search_manual embedW collSearchW "x" 5).results.length
    ∧ (collSearchW.entries = [] → (search_manual embedW collSearchW "x" 5).results = []
        ∧ (search_manual embedW collSearchW "x" 5).total_results = 0)
    ∧ ((collSearchW.count : Int) ≤ 5 →
        (search_manual embedW collSearchW "x" 5).results.length = collSearchW.count) :=
  search_bounded_sorted embedW collSearchW "x" 5 (by norm_num) (by norm_num)

/-- C10: SearchService.search itself validates nothing: for every query
string (the empty string included) and every integer k (nonpositive and
greater than 20 included) it returns exactly the store query applied to the
encoded query and the unchanged k; the length and range constraints live
only in the pydantic request model, which accepts exactly
1 ≤ len(query) and 1 ≤ k ≤ 20. -/
theorem searchService_no_validation :
    (∀ (embed : String → Embedding) (coll : Collection) (q : String) (k : Int),
      SearchService.search embed coll q k = Collection.query coll (embed q) k)
    ∧ (∀ (q : String) (k : Int),
        SearchRequest.validate q k = true ↔ (1 ≤ q.length ∧ 1 ≤ k ∧ k ≤ 20)) := by
  constructor
  · intro embed coll q k
    rfl
  · intro q k
    unfold SearchRequest.validate
    simp [and_assoc]
